import Mathlib

/-!
Shallow embedding of the serdevault encrypted-vault library.

Byte sequences are `List Nat`; machine `u32` values are `Nat` with explicit
`% 2 ^ 32` bounds where overflow matters.  Randomness (salt, nonce) and file
contents are passed around explicitly.  The external cryptographic
primitives (Argon2id, AES-256-GCM) and the pluggable value serializer are
not part of this repository; they are modelled from the spec's contracts,
as noted on each such definition.
-/

namespace SerdeVault

/-- Error type of the library, translated from `SerdeVaultError` in
`src/error.rs`.  The `IoError` payload is reduced to its message string. -/
inductive SerdeVaultError where
  | ioError (msg : String)
  | serializationError (msg : String)
  | deserializationError (msg : String)
  | encryptionError (msg : String)
  | decryptionFailed
  | kdfError (msg : String)
  | invalidFormat (msg : String)
  | unsupportedVersion (version : Nat)
  deriving DecidableEq

/-- Salt size in bytes (`src/crypto/kdf.rs`). -/
def SALT_SIZE : Nat := 32

/-- Derived-key size in bytes (`src/crypto/kdf.rs`). -/
def KEY_SIZE : Nat := 32

/-- Nonce size in bytes (`src/crypto/cipher.rs`). -/
def NONCE_SIZE : Nat := 12

/-- Default Argon2id memory cost (`src/crypto/kdf.rs`). -/
def ARGON2_M_COST : Nat := 65536

/-- Default Argon2id time cost (`src/crypto/kdf.rs`). -/
def ARGON2_T_COST : Nat := 3

/-- Default Argon2id parallelism cost (`src/crypto/kdf.rs`). -/
def ARGON2_P_COST : Nat := 1

/-- Magic constant `b"SVLT"` of the vault format (`src/format.rs`). -/
def MAGIC : List Nat := [83, 86, 76, 84]

/-- Format version byte (`src/format.rs`). -/
def FORMAT_VERSION : Nat := 1

/-- Fixed header size of a vault file (`src/format.rs`): 61 bytes. -/
def HEADER_SIZE : Nat := 4 + 1 + SALT_SIZE + 4 + 4 + 4 + NONCE_SIZE

/-- Parsed vault header (`VaultHeader` in `src/format.rs`). -/
structure VaultHeader where
  salt : List Nat
  m_cost : Nat
  t_cost : Nat
  p_cost : Nat
  nonce : List Nat

/-- Little-endian byte encoding of a `u32`, as `u32::to_le_bytes`. -/
def u32ToLeBytes (n : Nat) : List Nat :=
  [n % 256, n / 256 % 256, n / 65536 % 256, n / 16777216 % 256]

/-- Little-endian `u32` from four bytes, as `u32::from_le_bytes` applied to
the four individually indexed bytes in `decode`. -/
def u32FromLeList (l : List Nat) : Nat :=
  l.getD 0 0 + 256 * l.getD 1 0 + 65536 * l.getD 2 0 + 16777216 * l.getD 3 0

/-- Serialize header plus ciphertext into file bytes (`encode` in
`src/format.rs`).  Total by construction: a plain field concatenation. -/
def encode (header : VaultHeader) (ciphertext : List Nat) : List Nat :=
  MAGIC ++ [FORMAT_VERSION] ++ header.salt ++
    u32ToLeBytes header.m_cost ++ u32ToLeBytes header.t_cost ++
    u32ToLeBytes header.p_cost ++ header.nonce ++ ciphertext

/-- Parse the binary vault format (`decode` in `src/format.rs`).  Checks, in
order: length at least `HEADER_SIZE`, magic bytes, version byte; then slices
out salt, the three cost parameters, nonce, and the trailing ciphertext.
Totality of this function models the source's panic-freedom: every slice and
index in the source is guarded by the initial length check. -/
def decode (data : List Nat) :
    Except SerdeVaultError (VaultHeader × List Nat) :=
  if data.length < HEADER_SIZE then
    .error (.invalidFormat ("file too small: " ++ toString data.length ++
      " bytes (minimum is " ++ toString HEADER_SIZE ++ ")"))
  else if data.take 4 ≠ MAGIC then
    .error (.invalidFormat "invalid magic number — not a serdevault file")
  else
    let version := (data.drop 4).headD 0
    if version ≠ FORMAT_VERSION then
      .error (.unsupportedVersion version)
    else
      let salt := (data.drop 5).take SALT_SIZE
      let o := 5 + SALT_SIZE
      let m_cost := u32FromLeList ((data.drop o).take 4)
      let t_cost := u32FromLeList ((data.drop (o + 4)).take 4)
      let p_cost := u32FromLeList ((data.drop (o + 8)).take 4)
      let nonce := (data.drop (o + 12)).take NONCE_SIZE
      .ok (⟨salt, m_cost, t_cost, p_cost, nonce⟩, data.drop HEADER_SIZE)

/-- Modelled from the spec: the derived symmetric key produced by Argon2id
(`derive_key` in `src/crypto/kdf.rs` delegates to the external `argon2`
crate).  The spec requires the derivation to be deterministic in
(password, salt, cost parameters); the model realises this as an injective
embedding of those inputs, so distinct passwords under the same salt and
costs yield distinct keys.  The password is its UTF-8 byte sequence. -/
def argonKey (password salt : List Nat) (m_cost t_cost p_cost : Nat) :
    List Nat :=
  password ++ (salt ++ (u32ToLeBytes m_cost ++
    (u32ToLeBytes t_cost ++ u32ToLeBytes p_cost)))

/-- Modelled from the spec: `derive_key` (`src/crypto/kdf.rs`).  Fails with
`KdfError` exactly when the cost parameters are invalid (zero iterations or
parallelism, memory below the algorithm's minimum); accepts any password,
including the empty one. -/
def derive_key (password salt : List Nat) (m_cost t_cost p_cost : Nat) :
    Except SerdeVaultError (List Nat) :=
  if 8 ≤ m_cost ∧ 1 ≤ t_cost ∧ 1 ≤ p_cost then
    .ok (argonKey password salt m_cost t_cost p_cost)
  else
    .error (.kdfError "invalid Argon2 parameters")

/-- Modelled from the spec: the AES-256-GCM ciphertext-with-tag as an ideal
AEAD.  The authenticating part binds the key and nonce and is recognisable
only with the same key and nonce; the plaintext follows it. -/
def encryptBytes (key nonce plaintext : List Nat) : List Nat :=
  key.length :: (key ++ (nonce ++ plaintext))

/-- Modelled from the spec: ideal AEAD opening.  Succeeds exactly on
ciphertexts produced by `encryptBytes` under the same key and nonce;
otherwise fails with the undifferentiated `DecryptionFailed`.  A buffer too
short to contain the authenticating material always fails. -/
def decryptBytes (key nonce ciphertext : List Nat) :
    Except SerdeVaultError (List Nat) :=
  if ciphertext.take (1 + key.length + nonce.length) =
      key.length :: (key ++ nonce) then
    .ok (ciphertext.drop (1 + key.length + nonce.length))
  else
    .error .decryptionFailed

/-- Encrypt with a freshly drawn nonce (`encrypt` in
`src/crypto/cipher.rs`).  The random nonce drawn from `OsRng` is passed in
explicitly; the function returns the ciphertext-with-tag and that nonce. -/
def encrypt (plaintext key nonce_bytes : List Nat) :
    Except SerdeVaultError (List Nat × List Nat) :=
  .ok (encryptBytes key nonce_bytes plaintext, nonce_bytes)

/-- Decrypt (`decrypt` in `src/crypto/cipher.rs`): verify and open the
ciphertext; any authentication failure is `DecryptionFailed`. -/
def decrypt (ciphertext key nonce_bytes : List Nat) :
    Except SerdeVaultError (List Nat) :=
  decryptBytes key nonce_bytes ciphertext

/-- Modelled from the spec: the pluggable value serializer (`serde_json` in
`src/vault.rs`): bytes-from-value and value-from-bytes, with the codec law
that deserialization inverts serialization on serializable values. -/
structure Codec (T : Type) where
  toVec : T → Except SerdeVaultError (List Nat)
  fromSlice : List Nat → Except SerdeVaultError T
  fromSlice_toVec : ∀ v bytes, toVec v = .ok bytes → fromSlice bytes = .ok v

/-- Modelled from the spec/std: `PathBuf::from(base).join(rest)` at the
string level — an absolute `rest` replaces the base, an empty base yields
`rest`, and otherwise a single separator joins the two. -/
def pathJoin (base rest : List Char) : List Char :=
  if rest.take 1 = ['/'] then rest
  else if base = [] then rest
  else if base.getLast? = some '/' then base ++ rest
  else base ++ '/' :: rest

/-- Expand a leading home-directory shorthand (`expand_tilde` in
`src/vault.rs`).  The ambient `HOME` environment lookup is passed in as an
`Option`; when it is unavailable the path is returned literally. -/
def expand_tilde (home : Option (List Char)) (path : List Char) :
    List Char :=
  match path with
  | '~' :: '/' :: rest =>
    match home with
    | some h => pathJoin h rest
    | none => path
  | _ => path

/-- Handle to an encrypted vault file (`VaultFile` in `src/vault.rs`).  The
password is held as its UTF-8 byte sequence. -/
structure VaultFile where
  path : List Char
  password : List Nat
  m_cost : Nat
  t_cost : Nat
  p_cost : Nat

/-- Construct a handle (`VaultFile::open`): expand a leading tilde against
the ambient `HOME` lookup and install the default Argon2id parameters. -/
def VaultFile.open' (home : Option (List Char)) (path : List Char)
    (password : List Nat) : VaultFile :=
  { path := expand_tilde home path
    password := password
    m_cost := ARGON2_M_COST
    t_cost := ARGON2_T_COST
    p_cost := ARGON2_P_COST }

/-- Override the Argon2id parameters used when saving
(`VaultFile::with_params`). -/
def VaultFile.with_params (vf : VaultFile) (m_cost t_cost p_cost : Nat) :
    VaultFile :=
  { vf with m_cost := m_cost, t_cost := t_cost, p_cost := p_cost }

/-- Serialize, encrypt and frame a value (`VaultFile::save` in
`src/vault.rs`).  The random salt drawn from `OsRng` and the random nonce
drawn inside `encrypt` are passed in explicitly; the result is the byte
sequence handed to `atomic_write`, i.e. the new file contents. -/
def VaultFile.save {T : Type} (C : Codec T) (vf : VaultFile) (data : T)
    (salt nonce : List Nat) : Except SerdeVaultError (List Nat) :=
  match C.toVec data with
  | .error e => .error e
  | .ok plaintext =>
    match derive_key vf.password salt vf.m_cost vf.t_cost vf.p_cost with
    | .error e => .error e
    | .ok key =>
      match encrypt plaintext key nonce with
      | .error e => .error e
      | .ok (ciphertext, nonce') =>
        .ok (encode ⟨salt, vf.m_cost, vf.t_cost, vf.p_cost, nonce'⟩
          ciphertext)

/-- Read back a value (`VaultFile::load` in `src/vault.rs`).  The raw file
contents read from disk are passed in explicitly; the key is derived from
the cost parameters stored in the decoded header, never from the handle's
own fields. -/
def VaultFile.load {T : Type} (C : Codec T) (vf : VaultFile)
    (raw : List Nat) : Except SerdeVaultError T :=
  match decode raw with
  | .error e => .error e
  | .ok (header, ciphertext) =>
    match derive_key vf.password header.salt header.m_cost
        header.t_cost header.p_cost with
    | .error e => .error e
    | .ok key =>
      match decrypt ciphertext key header.nonce with
      | .error e => .error e
      | .ok plaintext => C.fromSlice plaintext

/-- Concrete serializer instance used by witnesses: a `Nat` as a singleton
byte list. -/
def natCodec : Codec Nat where
  toVec n := .ok [n]
  fromSlice l :=
    match l with
    | [n] => .ok n
    | _ => .error (.deserializationError "expected a singleton")
  fromSlice_toVec := by
    intro v bytes h
    cases h
    rfl

/-- Concrete salt used by witnesses. -/
def sampleSalt : List Nat := List.replicate 32 5

/-- Concrete nonce used by witnesses. -/
def sampleNonce : List Nat := List.replicate 12 7

/-- Second concrete salt, different from `sampleSalt`. -/
def sampleSalt2 : List Nat := List.replicate 32 6

/-- Concrete header used by witnesses. -/
def sampleHeader : VaultHeader := ⟨sampleSalt, 8, 1, 1, sampleNonce⟩

/-- Concrete vault handle used by witnesses (password "pw", low-cost
parameters as in the repository's tests). -/
def sampleVault : VaultFile :=
  (VaultFile.open' none ['v'] [112, 119]).with_params 8 1 1

/-- Second concrete handle with a different password ("wr"). -/
def sampleVault2 : VaultFile :=
  (VaultFile.open' none ['v'] [119, 114]).with_params 8 1 1

/-- Concrete malformed input: right length, wrong magic. -/
def badMagicData : List Nat := List.replicate 61 0

/-- Concrete malformed input: good magic, unsupported version byte 9. -/
def badVersionData : List Nat := MAGIC ++ 9 :: List.replicate 56 0

/-- Concrete well-formed header bytes with empty ciphertext. -/
def goodData : List Nat := MAGIC ++ FORMAT_VERSION :: List.replicate 56 0

theorem u32ToLeBytes_length (n : Nat) : (u32ToLeBytes n).length = 4 := rfl

theorem u32FromLeList_toLeBytes {n : Nat} (h : n < 2 ^ 32) :
    u32FromLeList (u32ToLeBytes n) = n := by
  simp only [u32ToLeBytes, u32FromLeList, List.getD_cons_zero,
    List.getD_cons_succ]
  omega

theorem encode_eq_cons (h : VaultHeader) (ct : List Nat) :
    encode h ct = 83 :: 86 :: 76 :: 84 :: FORMAT_VERSION ::
      (h.salt ++ (u32ToLeBytes h.m_cost ++ (u32ToLeBytes h.t_cost ++
        (u32ToLeBytes h.p_cost ++ (h.nonce ++ ct))))) := by
  simp [encode, MAGIC]

theorem encode_length {h : VaultHeader} (ct : List Nat)
    (hs : h.salt.length = SALT_SIZE) (hn : h.nonce.length = NONCE_SIZE) :
    (encode h ct).length = HEADER_SIZE + ct.length := by
  rw [encode_eq_cons]
  simp [SALT_SIZE, NONCE_SIZE, HEADER_SIZE, u32ToLeBytes] at *
  omega

theorem encode_drop_5 (h : VaultHeader) (ct : List Nat) :
    (encode h ct).drop 5 = h.salt ++ (u32ToLeBytes h.m_cost ++
      (u32ToLeBytes h.t_cost ++ (u32ToLeBytes h.p_cost ++
        (h.nonce ++ ct)))) := by
  rw [encode_eq_cons]
  rfl

theorem encode_drop_37 {h : VaultHeader} (ct : List Nat)
    (hs : h.salt.length = SALT_SIZE) :
    (encode h ct).drop (5 + SALT_SIZE) = u32ToLeBytes h.m_cost ++
      (u32ToLeBytes h.t_cost ++ (u32ToLeBytes h.p_cost ++
        (h.nonce ++ ct))) := by
  rw [← List.drop_drop, encode_drop_5, List.drop_left' hs]

theorem encode_drop_41 {h : VaultHeader} (ct : List Nat)
    (hs : h.salt.length = SALT_SIZE) :
    (encode h ct).drop (5 + SALT_SIZE + 4) = u32ToLeBytes h.t_cost ++
      (u32ToLeBytes h.p_cost ++ (h.nonce ++ ct)) := by
  rw [← List.drop_drop, encode_drop_37 ct hs,
    List.drop_left' (u32ToLeBytes_length h.m_cost)]

theorem encode_drop_45 {h : VaultHeader} (ct : List Nat)
    (hs : h.salt.length = SALT_SIZE) :
    (encode h ct).drop (5 + SALT_SIZE + 8) = u32ToLeBytes h.p_cost ++
      (h.nonce ++ ct) := by
  have h8 : 5 + SALT_SIZE + 8 = 5 + SALT_SIZE + 4 + 4 := by
    simp [SALT_SIZE]
  rw [h8, ← List.drop_drop, encode_drop_41 ct hs,
    List.drop_left' (u32ToLeBytes_length h.t_cost)]

theorem encode_drop_49 {h : VaultHeader} (ct : List Nat)
    (hs : h.salt.length = SALT_SIZE) :
    (encode h ct).drop (5 + SALT_SIZE + 12) = h.nonce ++ ct := by
  have h12 : 5 + SALT_SIZE + 12 = 5 + SALT_SIZE + 8 + 4 := by
    simp [SALT_SIZE]
  rw [h12, ← List.drop_drop, encode_drop_45 ct hs,
    List.drop_left' (u32ToLeBytes_length h.p_cost)]

theorem encode_drop_61 {h : VaultHeader} (ct : List Nat)
    (hs : h.salt.length = SALT_SIZE) (hn : h.nonce.length = NONCE_SIZE) :
    (encode h ct).drop HEADER_SIZE = ct := by
  have h61 : HEADER_SIZE = 5 + SALT_SIZE + 12 + NONCE_SIZE := by
    simp [HEADER_SIZE, SALT_SIZE, NONCE_SIZE]
  rw [h61, ← List.drop_drop, encode_drop_49 ct hs, List.drop_left' hn]

theorem encode_take_4 (h : VaultHeader) (ct : List Nat) :
    (encode h ct).take 4 = MAGIC := by
  rw [encode_eq_cons]
  rfl

theorem encode_version (h : VaultHeader) (ct : List Nat) :
    ((encode h ct).drop 4).headD 0 = FORMAT_VERSION := by
  rw [encode_eq_cons]
  rfl

/-- Key structural fact shared by several claims: decoding an encoded frame
with well-formed field sizes recovers the header and ciphertext exactly. -/
theorem decode_encode {h : VaultHeader} {c : List Nat}
    (hs : h.salt.length = SALT_SIZE) (hn : h.nonce.length = NONCE_SIZE)
    (hm : h.m_cost < 2 ^ 32) (ht : h.t_cost < 2 ^ 32)
    (hp : h.p_cost < 2 ^ 32) :
    decode (encode h c) = .ok (h, c) := by
  have h1 : ¬ (encode h c).length < HEADER_SIZE := by
    rw [encode_length c hs hn]
    omega
  have hsalt : ((encode h c).drop 5).take SALT_SIZE = h.salt := by
    rw [encode_drop_5, List.take_left' hs]
  have hmb : ((encode h c).drop (5 + SALT_SIZE)).take 4 =
      u32ToLeBytes h.m_cost := by
    rw [encode_drop_37 c hs, List.take_left' (u32ToLeBytes_length _)]
  have htb : ((encode h c).drop (5 + SALT_SIZE + 4)).take 4 =
      u32ToLeBytes h.t_cost := by
    rw [encode_drop_41 c hs, List.take_left' (u32ToLeBytes_length _)]
  have hpb : ((encode h c).drop (5 + SALT_SIZE + 8)).take 4 =
      u32ToLeBytes h.p_cost := by
    rw [encode_drop_45 c hs, List.take_left' (u32ToLeBytes_length _)]
  have hnb : ((encode h c).drop (5 + SALT_SIZE + 12)).take NONCE_SIZE =
      h.nonce := by
    rw [encode_drop_49 c hs, List.take_left' hn]
  simp only [decode, h1, if_false, encode_take_4, ne_eq, not_true_eq_false,
    if_neg, encode_version, ite_false, ite_true, not_false_eq_true, hsalt,
    hmb, htb, hpb, hnb, encode_drop_61 c hs hn,
    u32FromLeList_toLeBytes hm, u32FromLeList_toLeBytes ht,
    u32FromLeList_toLeBytes hp]

/-- C3: `decode` validates its input in this order — a buffer shorter than
the 61-byte fixed header is `InvalidFormat`; otherwise a wrong 4-byte magic
is `InvalidFormat`; otherwise a version byte other than 1 is
`UnsupportedVersion` carrying that byte; only when all three checks pass
are salt, cost parameters, nonce and ciphertext sliced out.  `decode` is a
total function, so it cannot panic on any input. -/
theorem decode_validation_order (data : List Nat) :
    (data.length < HEADER_SIZE →
      ∃ msg, decode data = .error (.invalidFormat msg)) ∧
    (HEADER_SIZE ≤ data.length → data.take 4 ≠ MAGIC →
      ∃ msg, decode data = .error (.invalidFormat msg)) ∧
    (HEADER_SIZE ≤ data.length → data.take 4 = MAGIC →
      (data.drop 4).headD 0 ≠ FORMAT_VERSION →
      decode data = .error (.unsupportedVersion ((data.drop 4).headD 0))) ∧
    (HEADER_SIZE ≤ data.length → data.take 4 = MAGIC →
      (data.drop 4).headD 0 = FORMAT_VERSION →
      decode data = .ok
        (⟨(data.drop 5).take SALT_SIZE,
          u32FromLeList ((data.drop (5 + SALT_SIZE)).take 4),
          u32FromLeList ((data.drop (5 + SALT_SIZE + 4)).take 4),
          u32FromLeList ((data.drop (5 + SALT_SIZE + 8)).take 4),
          (data.drop (5 + SALT_SIZE + 12)).take NONCE_SIZE⟩,
         data.drop HEADER_SIZE)) := by
  refine ⟨fun h1 => ?_, fun h1 h2 => ?_,
    fun h1 h2 h3 => ?_, fun h1 h2 h3 => ?_⟩
  · simp only [decode]
    rw [if_pos h1]
    exact ⟨_, rfl⟩
  · simp only [decode]
    rw [if_neg (by omega), if_pos h2]
    exact ⟨_, rfl⟩
  · have hnl : ¬ data.length < HEADER_SIZE := by omega
    have h3' : ¬ data[4]?.getD 0 = FORMAT_VERSION := by simpa using h3
    simp [decode, hnl, h2, h3']
  · have hnl : ¬ data.length < HEADER_SIZE := by omega
    have h3' : data[4]?.getD 0 = FORMAT_VERSION := by simpa using h3
    simp [decode, hnl, h2, h3']

/-- Witness for C3 at four concrete inputs: the empty buffer, a 61-byte
all-zero buffer, a buffer with version byte 9, and a well-formed one. -/
theorem decode_validation_order_witness :
    ([] : List Nat).length < HEADER_SIZE ∧
    (∃ msg, decode [] = .error (.invalidFormat msg)) ∧
    badMagicData.take 4 ≠ MAGIC ∧
    (∃ msg, decode badMagicData = .error (.invalidFormat msg)) ∧
    decode badVersionData =
      .error (.unsupportedVersion ((badVersionData.drop 4).headD 0)) ∧
    decode goodData = .ok
      (⟨(goodData.drop 5).take SALT_SIZE,
        u32FromLeList ((goodData.drop (5 + SALT_SIZE)).take 4),
        u32FromLeList ((goodData.drop (5 + SALT_SIZE + 4)).take 4),
        u32FromLeList ((goodData.drop (5 + SALT_SIZE + 8)).take 4),
        (goodData.drop (5 + SALT_SIZE + 12)).take NONCE_SIZE⟩,
       goodData.drop HEADER_SIZE) :=
  ⟨by decide, (decode_validation_order []).1 (by decide), by decide,
    (decode_validation_order badMagicData).2.1 (by decide) (by decide),
    (decode_validation_order badVersionData).2.2.1 (by decide) (by decide)
      (by decide),
    (decode_validation_order goodData).2.2.2 (by decide) (by decide)
      (by decide)⟩

/-- C5: `encode` is total — it is a plain Lean function returning the
concatenation — and lays the fields out exactly as documented: magic at
offset 0, version byte 1 at offset 4, the 32-byte salt at offset 5, the
three cost parameters as little-endian u32 at offsets 37, 41 and 45, the
12-byte nonce at offset 49, the ciphertext from offset 61 on, and the total
length is 61 plus the ciphertext length. -/
theorem encode_total_layout (h : VaultHeader) (ct : List Nat)
    (hs : h.salt.length = SALT_SIZE) (hn : h.nonce.length = NONCE_SIZE) :
    (encode h ct).length = HEADER_SIZE + ct.length ∧
    (encode h ct).take 4 = MAGIC ∧
    ((encode h ct).drop 4).take 1 = [FORMAT_VERSION] ∧
    ((encode h ct).drop 5).take SALT_SIZE = h.salt ∧
    ((encode h ct).drop 37).take 4 = u32ToLeBytes h.m_cost ∧
    ((encode h ct).drop 41).take 4 = u32ToLeBytes h.t_cost ∧
    ((encode h ct).drop 45).take 4 = u32ToLeBytes h.p_cost ∧
    ((encode h ct).drop 49).take NONCE_SIZE = h.nonce ∧
    (encode h ct).drop HEADER_SIZE = ct := by
  refine ⟨encode_length ct hs hn, encode_take_4 h ct, ?_, ?_, ?_, ?_, ?_,
    ?_, encode_drop_61 ct hs hn⟩
  · rw [encode_eq_cons]
    rfl
  · rw [encode_drop_5, List.take_left' hs]
  · rw [show (37 : Nat) = 5 + SALT_SIZE by rfl, encode_drop_37 ct hs,
      List.take_left' (u32ToLeBytes_length _)]
  · rw [show (41 : Nat) = 5 + SALT_SIZE + 4 by rfl, encode_drop_41 ct hs,
      List.take_left' (u32ToLeBytes_length _)]
  · rw [show (45 : Nat) = 5 + SALT_SIZE + 8 by rfl, encode_drop_45 ct hs,
      List.take_left' (u32ToLeBytes_length _)]
  · rw [show (49 : Nat) = 5 + SALT_SIZE + 12 by rfl, encode_drop_49 ct hs,
      List.take_left' hn]

/-- Witness for C5 at a concrete header and ciphertext. -/
theorem encode_total_layout_witness :
    sampleHeader.salt.length = SALT_SIZE ∧
    sampleHeader.nonce.length = NONCE_SIZE ∧
    ((encode sampleHeader [1, 2, 3]).length =
        HEADER_SIZE + [1, 2, 3].length ∧
      (encode sampleHeader [1, 2, 3]).take 4 = MAGIC ∧
      ((encode sampleHeader [1, 2, 3]).drop 4).take 1 = [FORMAT_VERSION] ∧
      ((encode sampleHeader [1, 2, 3]).drop 5).take SALT_SIZE =
        sampleHeader.salt ∧
      ((encode sampleHeader [1, 2, 3]).drop 37).take 4 =
        u32ToLeBytes sampleHeader.m_cost ∧
      ((encode sampleHeader [1, 2, 3]).drop 41).take 4 =
        u32ToLeBytes sampleHeader.t_cost ∧
      ((encode sampleHeader [1, 2, 3]).drop 45).take 4 =
        u32ToLeBytes sampleHeader.p_cost ∧
      ((encode sampleHeader [1, 2, 3]).drop 49).take NONCE_SIZE =
        sampleHeader.nonce ∧
      (encode sampleHeader [1, 2, 3]).drop HEADER_SIZE = [1, 2, 3]) :=
  ⟨by decide, by decide,
    encode_total_layout sampleHeader [1, 2, 3] (by decide) (by decide)⟩

/-- C10: decoding the bytes produced by `encode` succeeds and returns a
header equal field by field to the one encoded, together with the original
ciphertext. -/
theorem decode_encode_fields (h : VaultHeader) (ct : List Nat)
    (hs : h.salt.length = SALT_SIZE) (hn : h.nonce.length = NONCE_SIZE)
    (hm : h.m_cost < 2 ^ 32) (ht : h.t_cost < 2 ^ 32)
    (hp : h.p_cost < 2 ^ 32) :
    ∃ h' ct', decode (encode h ct) = .ok (h', ct') ∧
      h'.salt = h.salt ∧ h'.m_cost = h.m_cost ∧ h'.t_cost = h.t_cost ∧
      h'.p_cost = h.p_cost ∧ h'.nonce = h.nonce ∧ ct' = ct :=
  ⟨h, ct, decode_encode hs hn hm ht hp, rfl, rfl, rfl, rfl, rfl, rfl⟩

/-- Witness for C10 at a concrete header and ciphertext. -/
theorem decode_encode_fields_witness :
    sampleHeader.salt.length = SALT_SIZE ∧
    sampleHeader.nonce.length = NONCE_SIZE ∧
    sampleHeader.m_cost < 2 ^ 32 ∧ sampleHeader.t_cost < 2 ^ 32 ∧
    sampleHeader.p_cost < 2 ^ 32 ∧
    (∃ h' ct', decode (encode sampleHeader [9]) = .ok (h', ct') ∧
      h'.salt = sampleHeader.salt ∧ h'.m_cost = sampleHeader.m_cost ∧
      h'.t_cost = sampleHeader.t_cost ∧ h'.p_cost = sampleHeader.p_cost ∧
      h'.nonce = sampleHeader.nonce ∧ ct' = [9]) :=
  ⟨by decide, by decide, by decide, by decide, by decide,
    decode_encode_fields sampleHeader [9] (by decide) (by decide)
      (by decide) (by decide) (by decide)⟩

theorem decryptBytes_encryptBytes (key nonce pt : List Nat) :
    decryptBytes key nonce (encryptBytes key nonce pt) = .ok pt := by
  unfold decryptBytes encryptBytes
  have hc : (key.length :: (key ++ (nonce ++ pt))).take
      (1 + key.length + nonce.length) = key.length :: (key ++ nonce) := by
    rw [show 1 + key.length + nonce.length =
          key.length + nonce.length + 1 by omega,
      List.take_succ_cons, List.take_append, List.take_left]
  rw [if_pos hc,
    show 1 + key.length + nonce.length =
      key.length + nonce.length + 1 by omega,
    List.drop_succ_cons, List.drop_append, List.drop_left]

theorem decryptBytes_wrong_key {k1 k2 : List Nat} (nonce pt : List Nat)
    (hne : k1 ≠ k2) :
    decryptBytes k2 nonce (encryptBytes k1 nonce pt) =
      .error .decryptionFailed := by
  unfold decryptBytes encryptBytes
  rw [if_neg]
  intro hc
  rw [show 1 + k2.length + nonce.length =
        k2.length + nonce.length + 1 by omega,
    List.take_succ_cons] at hc
  obtain ⟨hlen, htail⟩ := List.cons.inj hc
  rw [← hlen, List.take_append, List.take_left] at htail
  exact hne (List.append_cancel_right htail)

theorem decryptBytes_nil (key nonce : List Nat) :
    decryptBytes key nonce [] = .error .decryptionFailed := by
  unfold decryptBytes
  rw [if_neg]
  simp

theorem derive_key_valid {m_cost t_cost p_cost : Nat}
    (password salt : List Nat)
    (h : 8 ≤ m_cost ∧ 1 ≤ t_cost ∧ 1 ≤ p_cost) :
    derive_key password salt m_cost t_cost p_cost =
      .ok (argonKey password salt m_cost t_cost p_cost) := by
  simp [derive_key, h]

theorem argonKey_inj_password {p1 p2 salt : List Nat}
    {m_cost t_cost p_cost : Nat}
    (h : argonKey p1 salt m_cost t_cost p_cost =
      argonKey p2 salt m_cost t_cost p_cost) : p1 = p2 :=
  List.append_cancel_right h

theorem save_eq {T : Type} (C : Codec T) (vf : VaultFile) (v : T)
    {bytes : List Nat} (salt nonce : List Nat)
    (hser : C.toVec v = .ok bytes)
    (hvp : 8 ≤ vf.m_cost ∧ 1 ≤ vf.t_cost ∧ 1 ≤ vf.p_cost) :
    vf.save C v salt nonce = .ok
      (encode ⟨salt, vf.m_cost, vf.t_cost, vf.p_cost, nonce⟩
        (encryptBytes
          (argonKey vf.password salt vf.m_cost vf.t_cost vf.p_cost)
          nonce bytes)) := by
  simp [VaultFile.save, hser, derive_key_valid vf.password salt hvp,
    encrypt]

theorem load_eq {T : Type} (C : Codec T) (vf : VaultFile)
    {salt nonce ct raw : List Nat} {m_cost t_cost p_cost : Nat}
    (hdec : decode raw = .ok (⟨salt, m_cost, t_cost, p_cost, nonce⟩, ct))
    (hvp : 8 ≤ m_cost ∧ 1 ≤ t_cost ∧ 1 ≤ p_cost) :
    vf.load C raw = (decryptBytes
      (argonKey vf.password salt m_cost t_cost p_cost)
      nonce ct).bind C.fromSlice := by
  simp [VaultFile.load, hdec,
    derive_key_valid vf.password salt hvp, decrypt, Except.bind]
  cases decryptBytes (argonKey vf.password salt m_cost t_cost
    p_cost) nonce ct <;> rfl


/-- C1: saving a serializable value through a vault handle with a non-empty
password, then loading the produced file with the same handle (same path,
same password), succeeds and returns a value equal to the one saved. -/
theorem save_load_roundtrip {T : Type} (C : Codec T) (vf : VaultFile)
    (v : T) (bytes salt nonce : List Nat)
    (hpw : vf.password ≠ [])
    (hser : C.toVec v = .ok bytes)
    (hs : salt.length = SALT_SIZE) (hn : nonce.length = NONCE_SIZE)
    (hm : vf.m_cost < 2 ^ 32) (ht : vf.t_cost < 2 ^ 32)
    (hp : vf.p_cost < 2 ^ 32)
    (hvp : 8 ≤ vf.m_cost ∧ 1 ≤ vf.t_cost ∧ 1 ≤ vf.p_cost) :
    ∃ file, vf.save C v salt nonce = .ok file ∧
      vf.load C file = .ok v := by
  refine ⟨_, save_eq C vf v salt nonce hser hvp, ?_⟩
  rw [load_eq C vf
      (decode_encode
        (h := ⟨salt, vf.m_cost, vf.t_cost, vf.p_cost, nonce⟩)
        hs hn hm ht hp) hvp,
    decryptBytes_encryptBytes]
  exact C.fromSlice_toVec v bytes hser

/-- Witness for C1 at a concrete handle, value and random draws. -/
theorem save_load_roundtrip_witness :
    sampleVault.password ≠ [] ∧
    natCodec.toVec 5 = .ok [5] ∧
    sampleSalt.length = SALT_SIZE ∧ sampleNonce.length = NONCE_SIZE ∧
    sampleVault.m_cost < 2 ^ 32 ∧ sampleVault.t_cost < 2 ^ 32 ∧
    sampleVault.p_cost < 2 ^ 32 ∧
    (8 ≤ sampleVault.m_cost ∧ 1 ≤ sampleVault.t_cost ∧
      1 ≤ sampleVault.p_cost) ∧
    (∃ file,
      sampleVault.save natCodec 5 sampleSalt sampleNonce = .ok file ∧
      sampleVault.load natCodec file = .ok 5) :=
  ⟨by decide, rfl, by decide, by decide, by decide, by decide, by decide,
    by decide,
    save_load_roundtrip natCodec sampleVault 5 [5] sampleSalt sampleNonce
      (by decide) rfl (by decide) (by decide) (by decide) (by decide)
      (by decide) (by decide)⟩

/-- C2: after saving with one password, loading the produced file through a
handle holding a different password fails with `DecryptionFailed` — it
never returns a value, and as a total function it cannot panic. -/
theorem wrong_password_load_fails {T : Type} (C : Codec T)
    (vf1 vf2 : VaultFile) (v : T) (bytes salt nonce : List Nat)
    (hpw : vf1.password ≠ vf2.password)
    (hser : C.toVec v = .ok bytes)
    (hs : salt.length = SALT_SIZE) (hn : nonce.length = NONCE_SIZE)
    (hm : vf1.m_cost < 2 ^ 32) (ht : vf1.t_cost < 2 ^ 32)
    (hp : vf1.p_cost < 2 ^ 32)
    (hvp : 8 ≤ vf1.m_cost ∧ 1 ≤ vf1.t_cost ∧ 1 ≤ vf1.p_cost) :
    ∃ file, vf1.save C v salt nonce = .ok file ∧
      vf2.load C file = .error .decryptionFailed := by
  refine ⟨_, save_eq C vf1 v salt nonce hser hvp, ?_⟩
  rw [load_eq C vf2
      (decode_encode
        (h := ⟨salt, vf1.m_cost, vf1.t_cost, vf1.p_cost, nonce⟩)
        hs hn hm ht hp) hvp,
    decryptBytes_wrong_key nonce bytes
      (fun hk => hpw (argonKey_inj_password hk))]
  rfl

/-- Witness for C2 at two concrete handles with passwords "pw" and "wr". -/
theorem wrong_password_load_fails_witness :
    sampleVault.password ≠ sampleVault2.password ∧
    natCodec.toVec 5 = .ok [5] ∧
    sampleSalt.length = SALT_SIZE ∧ sampleNonce.length = NONCE_SIZE ∧
    sampleVault.m_cost < 2 ^ 32 ∧ sampleVault.t_cost < 2 ^ 32 ∧
    sampleVault.p_cost < 2 ^ 32 ∧
    (8 ≤ sampleVault.m_cost ∧ 1 ≤ sampleVault.t_cost ∧
      1 ≤ sampleVault.p_cost) ∧
    (∃ file,
      sampleVault.save natCodec 5 sampleSalt sampleNonce = .ok file ∧
      sampleVault2.load natCodec file = .error .decryptionFailed) :=
  ⟨by decide, rfl, by decide, by decide, by decide, by decide, by decide,
    by decide,
    wrong_password_load_fails natCodec sampleVault sampleVault2 5 [5]
      sampleSalt sampleNonce (by decide) rfl (by decide) (by decide)
      (by decide) (by decide) (by decide) (by decide)⟩

/-- C6: as a two-run statement over the explicit random inputs, whenever
the drawn salt or the drawn nonce differs between two saves of the same
value with the same handle, the produced file contents differ. -/
theorem two_saves_differ {T : Type} (C : Codec T) (vf : VaultFile) (v : T)
    (bytes s1 n1 s2 n2 : List Nat)
    (hser : C.toVec v = .ok bytes)
    (hs1 : s1.length = SALT_SIZE) (hn1 : n1.length = NONCE_SIZE)
    (hs2 : s2.length = SALT_SIZE) (hn2 : n2.length = NONCE_SIZE)
    (hm : vf.m_cost < 2 ^ 32) (ht : vf.t_cost < 2 ^ 32)
    (hp : vf.p_cost < 2 ^ 32)
    (hvp : 8 ≤ vf.m_cost ∧ 1 ≤ vf.t_cost ∧ 1 ≤ vf.p_cost)
    (hdiff : s1 ≠ s2 ∨ n1 ≠ n2) :
    vf.save C v s1 n1 ≠ vf.save C v s2 n2 := by
  rw [save_eq C vf v s1 n1 hser hvp, save_eq C vf v s2 n2 hser hvp]
  intro heq
  injection heq with hfe
  have hdec := congrArg decode hfe
  rw [decode_encode (h := ⟨s1, vf.m_cost, vf.t_cost, vf.p_cost, n1⟩)
      hs1 hn1 hm ht hp,
    decode_encode (h := ⟨s2, vf.m_cost, vf.t_cost, vf.p_cost, n2⟩)
      hs2 hn2 hm ht hp] at hdec
  injection hdec with hpair
  have hh : (⟨s1, vf.m_cost, vf.t_cost, vf.p_cost, n1⟩ : VaultHeader) =
      ⟨s2, vf.m_cost, vf.t_cost, vf.p_cost, n2⟩ := congrArg Prod.fst hpair
  cases hdiff with
  | inl hds => exact hds (congrArg VaultHeader.salt hh)
  | inr hdn => exact hdn (congrArg VaultHeader.nonce hh)

/-- Witness for C6 at concrete inputs differing in the salt. -/
theorem two_saves_differ_witness :
    natCodec.toVec 5 = .ok [5] ∧
    sampleSalt.length = SALT_SIZE ∧ sampleNonce.length = NONCE_SIZE ∧
    sampleSalt2.length = SALT_SIZE ∧
    sampleVault.m_cost < 2 ^ 32 ∧ sampleVault.t_cost < 2 ^ 32 ∧
    sampleVault.p_cost < 2 ^ 32 ∧
    (8 ≤ sampleVault.m_cost ∧ 1 ≤ sampleVault.t_cost ∧
      1 ≤ sampleVault.p_cost) ∧
    (sampleSalt ≠ sampleSalt2 ∨ sampleNonce ≠ sampleNonce) ∧
    sampleVault.save natCodec 5 sampleSalt sampleNonce ≠
      sampleVault.save natCodec 5 sampleSalt2 sampleNonce :=
  ⟨rfl, by decide, by decide, by decide, by decide, by decide, by decide,
    by decide, by decide,
    two_saves_differ natCodec sampleVault 5 [5] sampleSalt sampleNonce
      sampleSalt2 sampleNonce rfl (by decide) (by decide) (by decide)
      (by decide) (by decide) (by decide) (by decide) (by decide)
      (by decide)⟩

/-- C7: truncating a saved vault file to exactly its 61-byte header hands
the cipher an empty ciphertext slice, and `load` fails with
`DecryptionFailed` — not `InvalidFormat`, not a silent empty result, and
being total it cannot panic. -/
theorem truncated_file_decryption_failed {T : Type} (C : Codec T)
    (vf : VaultFile) (v : T) (bytes salt nonce : List Nat)
    (hser : C.toVec v = .ok bytes)
    (hs : salt.length = SALT_SIZE) (hn : nonce.length = NONCE_SIZE)
    (hm : vf.m_cost < 2 ^ 32) (ht : vf.t_cost < 2 ^ 32)
    (hp : vf.p_cost < 2 ^ 32)
    (hvp : 8 ≤ vf.m_cost ∧ 1 ≤ vf.t_cost ∧ 1 ≤ vf.p_cost) :
    ∃ file, vf.save C v salt nonce = .ok file ∧
      vf.load C (file.take HEADER_SIZE) = .error .decryptionFailed := by
  refine ⟨_, save_eq C vf v salt nonce hser hvp, ?_⟩
  have hsplit : ∀ ct : List Nat,
      encode ⟨salt, vf.m_cost, vf.t_cost, vf.p_cost, nonce⟩ ct =
        encode ⟨salt, vf.m_cost, vf.t_cost, vf.p_cost, nonce⟩ [] ++ ct :=
    fun ct => by simp [encode]
  have hlen :
      (encode ⟨salt, vf.m_cost, vf.t_cost, vf.p_cost, nonce⟩
        ([] : List Nat)).length = HEADER_SIZE := by
    rw [encode_length [] hs hn]
    rfl
  rw [hsplit, List.take_left' hlen,
    load_eq C vf
      (decode_encode
        (h := ⟨salt, vf.m_cost, vf.t_cost, vf.p_cost, nonce⟩)
        (c := []) hs hn hm ht hp) hvp,
    decryptBytes_nil]
  rfl

/-- Witness for C7 at a concrete handle and value. -/
theorem truncated_file_decryption_failed_witness :
    natCodec.toVec 5 = .ok [5] ∧
    sampleSalt.length = SALT_SIZE ∧ sampleNonce.length = NONCE_SIZE ∧
    sampleVault.m_cost < 2 ^ 32 ∧ sampleVault.t_cost < 2 ^ 32 ∧
    sampleVault.p_cost < 2 ^ 32 ∧
    (8 ≤ sampleVault.m_cost ∧ 1 ≤ sampleVault.t_cost ∧
      1 ≤ sampleVault.p_cost) ∧
    (∃ file,
      sampleVault.save natCodec 5 sampleSalt sampleNonce = .ok file ∧
      sampleVault.load natCodec (file.take HEADER_SIZE) =
        .error .decryptionFailed) :=
  ⟨rfl, by decide, by decide, by decide, by decide, by decide, by decide,
    truncated_file_decryption_failed natCodec sampleVault 5 [5]
      sampleSalt sampleNonce rfl (by decide) (by decide) (by decide)
      (by decide) (by decide) (by decide)⟩

/-- C4: `load` derives the key from the cost parameters parsed out of the
file header, never from the handle's configured ones — overriding the
handle's parameters with `with_params` leaves the result of `load` on any
input unchanged — while the parameters set via `with_params` are exactly
the ones embedded in the header written by the next `save`. -/
theorem load_uses_file_params {T : Type} (C : Codec T) (vf : VaultFile)
    (a b c : Nat) (raw : List Nat) (v : T) (bytes salt nonce : List Nat)
    (hser : C.toVec v = .ok bytes)
    (hs : salt.length = SALT_SIZE) (hn : nonce.length = NONCE_SIZE)
    (ha : a < 2 ^ 32) (hb : b < 2 ^ 32) (hc : c < 2 ^ 32)
    (hvp : 8 ≤ a ∧ 1 ≤ b ∧ 1 ≤ c) :
    (vf.with_params a b c).load C raw = vf.load C raw ∧
    (∃ file h' ct',
      (vf.with_params a b c).save C v salt nonce = .ok file ∧
      decode file = .ok (h', ct') ∧
      h'.m_cost = a ∧ h'.t_cost = b ∧ h'.p_cost = c) := by
  constructor
  · rfl
  · exact ⟨_, _, _,
      save_eq C (vf.with_params a b c) v salt nonce hser hvp,
      decode_encode (h := ⟨salt, a, b, c, nonce⟩) hs hn ha hb hc,
      rfl, rfl, rfl⟩

/-- Witness for C4 at a concrete handle, override and input. -/
theorem load_uses_file_params_witness :
    natCodec.toVec 5 = .ok [5] ∧
    sampleSalt.length = SALT_SIZE ∧ sampleNonce.length = NONCE_SIZE ∧
    (9 : Nat) < 2 ^ 32 ∧ (2 : Nat) < 2 ^ 32 ∧ (1 : Nat) < 2 ^ 32 ∧
    ((8 : Nat) ≤ 9 ∧ (1 : Nat) ≤ 2 ∧ (1 : Nat) ≤ 1) ∧
    ((sampleVault.with_params 9 2 1).load natCodec [] =
      sampleVault.load natCodec [] ∧
    (∃ file h' ct',
      (sampleVault.with_params 9 2 1).save natCodec 5 sampleSalt
        sampleNonce = .ok file ∧
      decode file = .ok (h', ct') ∧
      h'.m_cost = 9 ∧ h'.t_cost = 2 ∧ h'.p_cost = 1)) :=
  ⟨rfl, by decide, by decide, by decide, by decide, by decide, by decide,
    load_uses_file_params natCodec sampleVault 9 2 1 [] 5 [5] sampleSalt
      sampleNonce rfl (by decide) (by decide) (by decide) (by decide)
      (by decide) (by decide)⟩

/-- C9: constructing a handle on a path with the leading home-directory
shorthand expands it through the `HOME` lookup when that is available;
when the lookup is unavailable the path is used literally as given — the
shorthand is neither stripped nor replaced. -/
theorem open_expands_tilde (home rest : List Char) (password : List Nat) :
    (VaultFile.open' (some home) ('~' :: '/' :: rest) password).path =
      pathJoin home rest ∧
    (VaultFile.open' none ('~' :: '/' :: rest) password).path =
      '~' :: '/' :: rest := by
  constructor <;> rfl

end SerdeVault
